import Mathlib

/-!
# Verification of the karaoke score-ranking application

This development gives a shallow embedding of the algorithmic core of
`app.py`: the ingestion pipeline (`fetch_damtomo_ai_scores`,
`insert_scores_from_df`) and the leaderboard aggregation of the `ranking`
route (filter predicates, best-per-(song, user) selection, per-song top-3,
item ordering, per-user statistics).

Modelling conventions:
* Python floats carrying scores are modelled as exact rationals `ℚ`;
  the score values handled by the program (provider integers divided by
  1000) are exactly representable, so no rounding behaviour is lost.
* Timestamps (`pandas.Timestamp` / `datetime`) are modelled as naturals
  `ℕ`; only their ordering and equality matter to the code under study.
* A `pandas.DataFrame` of score rows is modelled as a `List` of rows;
  `NaN` / `NaT` cells are modelled with `Option`.
* The SQL store is modelled as a `List Score`; the unique constraint on
  `(song, user, date)` is the store-side key used by the code's
  existence pre-check.
* Effectful store commits are modelled with an explicit outcome oracle
  (success / integrity conflict / transient fault), indexed by the
  number of commit attempts made so far.
-/

set_option linter.unusedVariables false

/-- A persisted score row (the `Score` model of `app.py`): columns
`song` (曲名), `singer` (歌手名, nullable), `user` (ユーザー),
`score` (スコア, float), `date` (日付). -/
structure Score where
  song : String
  singer : Option String
  user : String
  score : ℚ
  date : ℕ
deriving DecidableEq, Repr

/-- A DataFrame row as consumed by `insert_scores_from_df`: `score` and
`date` may be `NaN`/`NaT` (modelled `none`). -/
structure Row where
  song : String
  singer : Option String
  user : String
  score : Option ℚ
  date : Option ℕ
deriving DecidableEq, Repr

/-- The `Score` object built by `insert_scores_from_df` from a row whose
score and date are present. -/
def mkScore (row : Row) (sc : ℚ) (d : ℕ) : Score :=
  ⟨row.song, row.singer, row.user, sc, d⟩

/-- The duplicate pre-check of `insert_scores_from_df`:
`session_db.query(Score).filter_by(song=…, user=…, date=…).first()`. -/
def existsKey (store : List Score) (song user : String) (date : ℕ) : Bool :=
  store.any (fun r => r.song == song && r.user == user && r.date == date)

/-- Embeds `insert_scores_from_df` of `app.py`, in the fault-free regime (every
`session_db.commit()` succeeds).  Rows whose date or score is missing are
skipped; rows whose `(song, user, date)` key already exists are skipped;
otherwise the row is persisted and counted.  Returns the final store and
the number of newly inserted rows. -/
def insert_scores_from_df (store : List Score) : List Row → List Score × ℕ
  | [] => (store, 0)
  | row :: rest =>
    match row.date, row.score with
    | some d, some sc =>
      if existsKey store row.song row.user d then
        insert_scores_from_df store rest
      else
        let out := insert_scores_from_df (mkScore row sc d :: store) rest
        (out.1, out.2 + 1)
    | _, _ => insert_scores_from_df store rest

/-- Outcome of one `session_db.commit()` attempt: success, an
`IntegrityError` (duplicate-key conflict), or any other exception
(e.g. a transient connectivity fault). -/
inductive Outcome where
  | success : Outcome
  | conflict : Outcome
  | fault : Outcome
deriving DecidableEq, Repr

/-- Embeds `insert_scores_from_df` with the store's commit outcomes made explicit.
`oracle n` is the outcome of the `n`-th commit attempt overall; `idx` is
the number of attempts made before this call.  Mirrors the source loop:
on `success` the record is appended and counted; on `IntegrityError` the
session is rolled back and the row skipped; on any other exception the
session is rolled back, the error printed, and the row skipped — with no
second attempt.  Returns (final store, inserted count, total attempts). -/
def insertScoresOracle (oracle : ℕ → Outcome) :
    List Score → ℕ → List Row → List Score × ℕ × ℕ
  | store, idx, [] => (store, 0, idx)
  | store, idx, row :: rest =>
    match row.date, row.score with
    | some d, some sc =>
      if existsKey store row.song row.user d then
        insertScoresOracle oracle store idx rest
      else
        match oracle idx with
        | .success =>
          let out := insertScoresOracle oracle
            (mkScore row sc d :: store) (idx + 1) rest
          (out.1, out.2.1 + 1, out.2.2)
        | .conflict => insertScoresOracle oracle store (idx + 1) rest
        | .fault => insertScoresOracle oracle store (idx + 1) rest
    | _, _ => insertScoresOracle oracle store idx rest

/-- The key of a valid row (one whose date parsed) is present in `store`. -/
def rowKeyIn (store : List Score) (row : Row) : Prop :=
  ∀ d, row.date = some d → row.score ≠ none →
    existsKey store row.song row.user d = true

theorem insert_cons_skip (store : List Score) (row : Row) (rest : List Row)
    (h : row.date = none ∨ row.score = none) :
    insert_scores_from_df store (row :: rest) = insert_scores_from_df store rest := by
  rcases row with ⟨s, sg, u, sc, d⟩
  rcases h with h | h <;> simp only at h <;> subst h <;>
    first
      | rfl
      | (cases d <;> rfl)

theorem insert_cons_dup (store : List Score) (row : Row) (rest : List Row)
    (d : ℕ) (sc : ℚ) (hd : row.date = some d) (hs : row.score = some sc)
    (hex : existsKey store row.song row.user d = true) :
    insert_scores_from_df store (row :: rest) = insert_scores_from_df store rest := by
  rcases row with ⟨s, sg, u, sc', d'⟩
  simp only at hd hs
  subst hd; subst hs
  simp only [insert_scores_from_df]
  simp_all

theorem insert_cons_new (store : List Score) (row : Row) (rest : List Row)
    (d : ℕ) (sc : ℚ) (hd : row.date = some d) (hs : row.score = some sc)
    (hex : existsKey store row.song row.user d = false) :
    insert_scores_from_df store (row :: rest) =
      ((insert_scores_from_df (mkScore row sc d :: store) rest).1,
       (insert_scores_from_df (mkScore row sc d :: store) rest).2 + 1) := by
  rcases row with ⟨s, sg, u, sc', d'⟩
  simp only at hd hs
  subst hd; subst hs
  simp only [insert_scores_from_df]
  simp_all

theorem existsKey_mono (store pre : List Score) (s u : String) (d : ℕ)
    (h : existsKey store s u d = true) : existsKey (pre ++ store) s u d = true := by
  simp only [existsKey, List.any_append, Bool.or_eq_true]
  exact Or.inr h

theorem insert_scores_store_extends (rows : List Row) (store : List Score) :
    ∃ pre, (insert_scores_from_df store rows).1 = pre ++ store := by
  induction rows generalizing store with
  | nil => exact ⟨[], rfl⟩
  | cons row rest ih =>
    cases hd : row.date with
    | none => rw [insert_cons_skip store row rest (Or.inl hd)]; exact ih store
    | some d =>
      cases hs : row.score with
      | none => rw [insert_cons_skip store row rest (Or.inr hs)]; exact ih store
      | some sc =>
        cases hex : existsKey store row.song row.user d with
        | true => rw [insert_cons_dup store row rest d sc hd hs hex]; exact ih store
        | false =>
          rw [insert_cons_new store row rest d sc hd hs hex]
          obtain ⟨pre, hpre⟩ := ih (mkScore row sc d :: store)
          exact ⟨pre ++ [mkScore row sc d], by simpa [List.append_assoc] using hpre⟩

theorem rowKeyIn_mono (store : List Score) (pre : List Score) (row : Row)
    (h : rowKeyIn store row) : rowKeyIn (pre ++ store) row :=
  fun d hd hs => existsKey_mono store pre _ _ d (h d hd hs)

/-- After one pass of the fault-free ingest, every valid row's key is
present in the resulting store. -/
theorem insert_scores_keys_present (rows : List Row) (store : List Score) :
    ∀ row ∈ rows, rowKeyIn (insert_scores_from_df store rows).1 row := by
  induction rows generalizing store with
  | nil => intro row h; simp at h
  | cons r rest ih =>
    intro row hrow
    rcases List.mem_cons.mp hrow with h | h
    · subst h
      intro d hd hs
      cases hsc : row.score with
      | none => exact absurd hsc hs
      | some sc =>
        cases hex : existsKey store row.song row.user d with
        | true =>
          rw [insert_cons_dup store row rest d sc hd hsc hex]
          obtain ⟨pre, hpre⟩ := insert_scores_store_extends rest store
          rw [hpre]
          exact existsKey_mono store pre _ _ d hex
        | false =>
          rw [insert_cons_new store row rest d sc hd hsc hex]
          obtain ⟨pre, hpre⟩ :=
            insert_scores_store_extends rest (mkScore row sc d :: store)
          simp only [hpre]
          refine existsKey_mono _ pre _ _ d ?_
          simp [existsKey, mkScore]
    · cases hd : r.date with
      | none => rw [insert_cons_skip store r rest (Or.inl hd)]; exact ih store row h
      | some d =>
        cases hs : r.score with
        | none => rw [insert_cons_skip store r rest (Or.inr hs)]; exact ih store row h
        | some sc =>
          cases hex : existsKey store r.song r.user d with
          | true => rw [insert_cons_dup store r rest d sc hd hs hex]; exact ih store row h
          | false => rw [insert_cons_new store r rest d sc hd hs hex]; exact ih _ row h

/-- If every valid row's key is already present, the fault-free ingest is
a no-op reporting 0 insertions. -/
theorem insert_scores_noop (rows : List Row) (store : List Score)
    (h : ∀ row ∈ rows, rowKeyIn store row) :
    insert_scores_from_df store rows = (store, 0) := by
  induction rows with
  | nil => rfl
  | cons r rest ih =>
    cases hd : r.date with
    | none =>
      rw [insert_cons_skip store r rest (Or.inl hd)]
      exact ih (fun row hr => h row (List.mem_cons_of_mem r hr))
    | some d =>
      cases hs : r.score with
      | none =>
        rw [insert_cons_skip store r rest (Or.inr hs)]
        exact ih (fun row hr => h row (List.mem_cons_of_mem r hr))
      | some sc =>
        have hex : existsKey store r.song r.user d = true :=
          h r (List.mem_cons_self r rest) d hd (by simp [hs])
        rw [insert_cons_dup store r rest d sc hd hs hex]
        exact ih (fun row hr => h row (List.mem_cons_of_mem r hr))

/-- Concrete rows and oracle used to exercise the fault path of the
ingest loop. -/
def row1 : Row := ⟨"s", none, "u", some 90, some 0⟩

def row2 : Row := ⟨"t", none, "u", some 88, some 1⟩

/-- Oracle whose first commit attempt raises a transient fault and whose
later attempts succeed. -/
def oracleFS : ℕ → Outcome := fun n => if n = 0 then Outcome.fault else Outcome.success

/-- C1 (amended): when the commit of a fresh record raises a transient
fault, `insert_scores_from_df` makes no retry: exactly one commit attempt
is consumed, the record is skipped (store unchanged, not counted), and
ingestion continues with the remaining rows of the batch. -/
theorem fault_skips_record_no_retry (oracle : ℕ → Outcome) (store : List Score)
    (idx : ℕ) (row : Row) (rest : List Row) (d : ℕ) (sc : ℚ)
    (hd : row.date = some d) (hs : row.score = some sc)
    (hex : existsKey store row.song row.user d = false)
    (hf : oracle idx = Outcome.fault) :
    insertScoresOracle oracle store idx (row :: rest) =
      insertScoresOracle oracle store (idx + 1) rest := by
  rcases row with ⟨s, sg, u, sc', d'⟩
  simp only at hd hs
  subst hd; subst hs
  simp only [insertScoresOracle]
  simp_all

/-- C1 (counterexample): for the one-row batch whose first commit attempt
faults and whose second attempt would succeed, the code makes a single
attempt (no retry) and the record is not persisted — contradicting the
claimed retry after connection re-establishment. -/
theorem fault_retry_counterexample :
    (insertScoresOracle oracleFS [] 0 [row1]).2.2 = 1 ∧
      (insertScoresOracle oracleFS [] 0 [row1]).2.2 ≠ 2 ∧
      (insertScoresOracle oracleFS [] 0 [row1]).1 = [] := by
  decide

/-- Witness for the amended C1 theorem: with the fault-then-success
oracle, the first row is skipped after one attempt and the second row of
the batch is still ingested. -/
theorem fault_skips_record_no_retry_witness :
    insertScoresOracle oracleFS [] 0 [row1, row2] = ([mkScore row2 88 1], 1, 2) := by
  rw [fault_skips_record_no_retry oracleFS [] 0 row1 [row2] 0 90 rfl rfl rfl rfl]
  decide

/-- C2: re-ingesting an identical batch is idempotent — the store is
unchanged and the second call reports 0 newly inserted rows. -/
theorem reingest_idempotent (store : List Score) (rows : List Row) :
    insert_scores_from_df (insert_scores_from_df store rows).1 rows =
      ((insert_scores_from_df store rows).1, 0) :=
  insert_scores_noop rows _ (insert_scores_keys_present rows store)

/-!
## A stable multi-key sort

`pandas.DataFrame.sort_values` and Python's `list.sort` are modelled by a
stable insertion sort parametrised by a boolean "may come before"
comparator.  An element is inserted before the first element it may
precede, so elements comparing equal keep their original relative order,
which is Python's documented `sort` behaviour (and, for the uses below,
agrees with `sort_values` wherever the relevant keys are distinct).
-/

def insertLe {α : Type} (le : α → α → Bool) (a : α) : List α → List α
  | [] => [a]
  | b :: l => if le a b then a :: b :: l else b :: insertLe le a l

def sortLe {α : Type} (le : α → α → Bool) : List α → List α
  | [] => []
  | a :: l => insertLe le a (sortLe le l)

theorem insertLe_perm {α : Type} (le : α → α → Bool) (a : α) (l : List α) :
    List.Perm (insertLe le a l) (a :: l) := by
  induction l with
  | nil => rfl
  | cons b l ih =>
    simp only [insertLe]
    by_cases h : le a b = true
    · simp [h]
    · simp only [h, if_false, Bool.false_eq_true]
      exact (ih.cons b).trans (List.Perm.swap a b l)

theorem sortLe_perm {α : Type} (le : α → α → Bool) (l : List α) :
    List.Perm (sortLe le l) l := by
  induction l with
  | nil => rfl
  | cons a l ih => exact (insertLe_perm le a (sortLe le l)).trans (ih.cons a)

theorem mem_sortLe {α : Type} (le : α → α → Bool) (l : List α) (x : α) :
    x ∈ sortLe le l ↔ x ∈ l :=
  (sortLe_perm le l).mem_iff

theorem length_sortLe {α : Type} (le : α → α → Bool) (l : List α) :
    (sortLe le l).length = l.length :=
  (sortLe_perm le l).length_eq

theorem pairwise_insertLe {α : Type} (le : α → α → Bool)
    (htot : ∀ a b, le a b = true ∨ le b a = true)
    (htr : ∀ a b c, le a b = true → le b c = true → le a c = true)
    (a : α) (l : List α) (h : l.Pairwise (fun x y => le x y = true)) :
    (insertLe le a l).Pairwise (fun x y => le x y = true) := by
  induction l with
  | nil => simp [insertLe]
  | cons b l ih =>
    rw [List.pairwise_cons] at h
    simp only [insertLe]
    by_cases hab : le a b = true
    · simp only [hab, if_true]
      rw [List.pairwise_cons]
      refine ⟨?_, List.pairwise_cons.mpr h⟩
      intro x hx
      rcases List.mem_cons.mp hx with hx | hx
      · subst hx; exact hab
      · exact htr a b x hab (h.1 x hx)
    · simp only [hab, if_false, Bool.false_eq_true]
      rw [List.pairwise_cons]
      constructor
      · intro x hx
        have hx2 := (insertLe_perm le a l).mem_iff.mp hx
        rcases List.mem_cons.mp hx2 with hx3 | hx3
        · subst hx3
          rcases htot x b with h' | h'
          · exact absurd h' hab
          · exact h'
        · exact h.1 x hx3
      · exact ih h.2

theorem pairwise_sortLe {α : Type} (le : α → α → Bool)
    (htot : ∀ a b, le a b = true ∨ le b a = true)
    (htr : ∀ a b c, le a b = true → le b c = true → le a c = true)
    (l : List α) : (sortLe le l).Pairwise (fun x y => le x y = true) := by
  induction l with
  | nil => exact List.Pairwise.nil
  | cons a l ih => exact pairwise_insertLe le htot htr a (sortLe le l) ih

/-- In a list sorted pairwise by `S`, the first element satisfying `p`
relates by `S` to every other element satisfying `p`. -/
theorem find?_pairwise {α : Type} {S : α → α → Prop} {l : List α}
    {p : α → Bool} {r : α} (hp : l.Pairwise S) (hf : l.find? p = some r) :
    ∀ x ∈ l, p x = true → x = r ∨ S r x := by
  induction l with
  | nil => intro x hx; simp at hx
  | cons a l ih =>
    rw [List.pairwise_cons] at hp
    intro x hx hpx
    cases hpa : p a with
    | true =>
      rw [List.find?_cons_of_pos _ hpa] at hf
      cases hf
      rcases List.mem_cons.mp hx with hx | hx
      · exact Or.inl hx
      · exact Or.inr (hp.1 x hx)
    | false =>
      rw [List.find?_cons_of_neg _ (by simp [hpa])] at hf
      rcases List.mem_cons.mp hx with hx | hx
      · subst hx; rw [hpx] at hpa; cases hpa
      · exact ih hp.2 hf x hx hpx

/-!
## The `ranking` route: filters, best rows, top 3, statistics

Embeds lines 257–359 of `app.py`.  `pandas` idioms are translated as
follows: `groupby(...)["ユーザー"].unique()` over one song becomes a
deduplicated list of that song's users; `sort_values(["スコア","日付"],
ascending=[False, True])` becomes `sortLe recLe`; `groupby` key order
(which pandas sorts ascending) becomes `sortLe strLe` over deduplicated
keys; `str.contains(q, case=False)` becomes a case-folded substring test
(regex metacharacters are not modelled; the queries studied here are
plain text).
-/

/-- The sort key of `sort_values(["スコア", "日付"], ascending=[False,
True])`: higher score first, ties by earlier date. -/
def recLe (a b : Score) : Bool :=
  decide (b.score < a.score) ||
    (decide (a.score = b.score) && decide (a.date ≤ b.date))

/-- Embeds `df_all.groupby("曲名")["ユーザー"].unique()` for one song: the
distinct users having a record on `song`. -/
def usersOf (recs : List Score) (song : String) : List String :=
  (recs.filterMap (fun r => if r.song == song then some r.user else none)).dedup

/-- Predicate of the `solo` filter: `len(set(us)) == 1 and filter_user in us`. -/
def soloAllowed (recs : List Score) (target song : String) : Bool :=
  (usersOf recs song).length == 1 && (usersOf recs song).contains target

/-- Predicate of the `others2` filter: `filter_user not in us and
len(set(us)) == 2`. -/
def others2Allowed (recs : List Score) (target song : String) : Bool :=
  !(usersOf recs song).contains target && (usersOf recs song).length == 2

/-- Predicate of the `95` filter: the target user has a record on the
song with score ≥ 95. -/
def hi95Allowed (recs : List Score) (target song : String) : Bool :=
  recs.any (fun r => r.song == song && r.user == target && decide ((95 : ℚ) ≤ r.score))

/-- Maximum of a list of scores (`groupby(...)["スコア"].max()`); the
uses below only apply it to non-empty lists. -/
def qmax : List ℚ → ℚ
  | [] => 0
  | a :: l => l.foldl max a

/-- The target user's scores on one song. -/
def targetScoresOn (recs : List Score) (target song : String) : List ℚ :=
  recs.filterMap (fun r =>
    if r.user == target && r.song == song then some r.score else none)

/-- Predicate of the `dere` filter: the target user has scored the song
and their maximum score on it is below 80. -/
def dereAllowed (recs : List Score) (target song : String) : Bool :=
  !(targetScoresOn recs target song).isEmpty &&
    decide (qmax (targetScoresOn recs target song) < 80)

/-- The four query parameters of the `ranking` route. -/
structure Query where
  songQ : String
  singerQ : String
  filterUser : String
  filterType : String
deriving DecidableEq, Repr

/-- The `filter_user`/`filter_type` block of `ranking` (app.py lines
267–284): applied only when the frame is non-empty and `filter_user` is
set; an unrecognized `filter_type` applies no filter. -/
def applyTypeFilter (recs : List Score) (q : Query) : List Score :=
  if recs.isEmpty || q.filterUser == "" then recs
  else if q.filterType == "others2" then
    recs.filter (fun r => others2Allowed recs q.filterUser r.song)
  else if q.filterType == "solo" then
    recs.filter (fun r => soloAllowed recs q.filterUser r.song)
  else if q.filterType == "95" then
    recs.filter (fun r => hi95Allowed recs q.filterUser r.song)
  else if q.filterType == "dere" then
    recs.filter (fun r => dereAllowed recs q.filterUser r.song)
  else recs

/-- Case-folded substring test modelling
`str.contains(pat, case=False, na=False)` for regex-free patterns. -/
def isPrefixList : List Char → List Char → Bool
  | [], _ => true
  | _ :: _, [] => false
  | a :: l, b :: m => a == b && isPrefixList l m

def isSubList (needle : List Char) : List Char → Bool
  | [] => needle.isEmpty
  | b :: m => isPrefixList needle (b :: m) || isSubList needle m

def containsCI (hay pat : String) : Bool :=
  isSubList (pat.data.map Char.toLower) (hay.data.map Char.toLower)

/-- The song/singer search block of `ranking` (app.py lines 309–313). -/
def applySearch (recs : List Score) (q : Query) : List Score :=
  let r1 := if q.songQ == "" then recs
    else recs.filter (fun r => containsCI r.song q.songQ)
  if q.singerQ == "" then r1
  else r1.filter (fun r => containsCI (r.singer.getD "") q.singerQ)

/-- The record set the ranked view (`filtered` / `best_rows` /
`ranking_list`) is computed from. -/
def rankedSource (recs : List Score) (q : Query) : List Score :=
  applySearch (applyTypeFilter recs q) q

/-- Embeds `df_all.groupby("ユーザー")` keys: the distinct users of the frame. -/
def usersAll (recs : List Score) : List String := (recs.map (·.user)).dedup

def recsOfUser (recs : List Score) (u : String) : List Score :=
  recs.filter (fun r => r.user == u)

/-- Embeds `.round(2)`.  (`pandas` rounds half to even while `round` here rounds
half away from zero; the two differ only on exact half-cent means, which
none of the claims depend on.) -/
def round2 (x : ℚ) : ℚ := (round (x * 100) : ℚ) / 100

/-- Embeds `user_averages = df_all.groupby("ユーザー")["スコア"].mean().round(2)`. -/
def user_averages (recs : List Score) : List (String × ℚ) :=
  (usersAll recs).map (fun u =>
    (u, round2 ((((recsOfUser recs u).map (·.score)).sum) / ((recsOfUser recs u).length : ℚ))))

/-- Embeds `user_total_records = df_all.groupby("ユーザー").size()`. -/
def user_total_records (recs : List Score) : List (String × ℕ) :=
  (usersAll recs).map (fun u => (u, (recsOfUser recs u).length))

/-- Embeds `user_95_counts`: per user of `df_95 = df_all[スコア ≥ 95]`, the
number of distinct songs among their ≥95 records. -/
def user_95_counts (recs : List Score) : List (String × ℕ) :=
  (usersAll (recs.filter (fun r => decide ((95 : ℚ) ≤ r.score)))).map (fun u =>
    (u, ((recs.filter (fun r => r.user == u && decide ((95 : ℚ) ≤ r.score))).map
      (·.song)).dedup.length))

def songsOfUser (recs : List Score) (u : String) : List String :=
  ((recsOfUser recs u).map (·.song)).dedup

/-- Embeds `user_dere_counts`: per user, the number of their songs whose maximum
score is below 80. -/
def user_dere_counts (recs : List Score) : List (String × ℕ) :=
  (usersAll recs).map (fun u =>
    (u, ((songsOfUser recs u).filter (fun s =>
      decide (qmax ((recsOfUser recs u).filterMap (fun r =>
        if r.song == s then some r.score else none)) < 80))).length))

/-- Embeds `ordered = filtered.sort_values(["スコア", "日付"], ...)`. -/
def sortedRecs (recs : List Score) : List Score := sortLe recLe recs

/-- The distinct `(曲名, ユーザー)` group keys of the frame. -/
def pairKeys (recs : List Score) : List (String × String) :=
  (recs.map (fun r => (r.song, r.user))).dedup

/-- The row `groupby(["曲名", "ユーザー"]).first()` keeps for one key:
the first row of the group in the `score desc, date asc` order. -/
def bestFor (recs : List Score) (s u : String) : Option Score :=
  (sortedRecs recs).find? (fun r => r.song == s && r.user == u)

/-- Embeds `best_rows`: one best row per `(song, user)` pair of the frame. -/
def best_rows (recs : List Score) : List Score :=
  (pairKeys recs).filterMap (fun p => bestFor recs p.1 p.2)

/-- The `best_rows` group of one song. -/
def songGroup (recs : List Score) (s : String) : List Score :=
  (best_rows recs).filter (fun r => r.song == s)

/-- Embeds `g_sorted.head(3)`: the top-3 leaderboard of one song. -/
def top3For (recs : List Score) (s : String) : List Score :=
  (sortLe recLe (songGroup recs s)).take 3

/-- The user credited with rank 3 of a song, when rank 3 exists
(`idx == 3` in the enumerate loop). -/
def thirdPlace (recs : List Score) (s : String) : Option String :=
  ((top3For recs s)[2]?).map (·.user)

/-- One entry of `ranking_list`. -/
structure RankItem where
  song : String
  topScore : ℚ
  records : List Score
  singer : Option String
deriving DecidableEq, Repr

def strLe (a b : String) : Bool := decide (a ≤ b)

/-- Embeds the `best_rows.groupby("曲名")` iteration order: song keys ascending. -/
def songKeys (recs : List Score) : List String :=
  sortLe strLe ((recs.map (·.song)).dedup)

/-- Embeds `ranking_list.sort(key=lambda x: x["top_score"], reverse=True)`:
stable descending sort by top score. -/
def itemLe (a b : RankItem) : Bool := decide (b.topScore ≤ a.topScore)

/-- Embeds `ranking_list` as rendered: per-song entries built in ascending song
order, then stably sorted by top score descending. -/
def ranking_list (recs : List Score) : List RankItem :=
  sortLe itemLe ((songKeys (best_rows recs)).filterMap (fun s =>
    match sortLe recLe ((best_rows recs).filter (fun r => r.song == s)) with
    | [] => none
    | r0 :: g => some ⟨s, r0.score, (r0 :: g).take 3, r0.singer⟩))

/-!
## Filter predicates (claims C6, C7)
-/

/-- The set of performers having at least one record on `song`. -/
def performersOn (recs : List Score) (song : String) : Finset String :=
  (usersOf recs song).toFinset

theorem nodup_usersOf (recs : List Score) (song : String) :
    (usersOf recs song).Nodup := List.nodup_dedup _

theorem mem_usersOf (recs : List Score) (song u : String) :
    u ∈ usersOf recs song ↔ ∃ r ∈ recs, r.song = song ∧ r.user = u := by
  simp only [usersOf, List.mem_dedup, List.mem_filterMap]
  constructor
  · rintro ⟨r, hr, hu⟩
    by_cases hs : (r.song == song) = true
    · rw [if_pos hs] at hu
      cases hu
      exact ⟨r, hr, beq_iff_eq.mp hs, rfl⟩
    · rw [if_neg hs] at hu
      cases hu
  · rintro ⟨r, hr, hs, hu⟩
    refine ⟨r, hr, ?_⟩
    rw [if_pos (beq_iff_eq.mpr hs), hu]

theorem mem_performersOn (recs : List Score) (song u : String) :
    u ∈ performersOn recs song ↔ ∃ r ∈ recs, r.song = song ∧ r.user = u := by
  rw [performersOn, List.mem_toFinset, mem_usersOf]

theorem card_performersOn (recs : List Score) (song : String) :
    (performersOn recs song).card = (usersOf recs song).length := by
  rw [performersOn, List.card_toFinset, (nodup_usersOf recs song).dedup]

/-- C6: the `solo` predicate holds for a song exactly when the full set
of performers with any record on it is the singleton of the target
performer (so a song also scored by anyone else is removed). -/
theorem solo_keeps_exactly_singleton (recs : List Score) (target song : String) :
    (soloAllowed recs target song = true ↔ performersOn recs song = {target}) ∧
      (∀ u, u ∈ performersOn recs song ↔ ∃ r ∈ recs, r.song = song ∧ r.user = u) := by
  refine ⟨?_, mem_performersOn recs song⟩
  constructor
  · intro h
    simp only [soloAllowed, Bool.and_eq_true] at h
    obtain ⟨x, hx⟩ := List.length_eq_one.mp (beq_iff_eq.mp h.1)
    have htar : target ∈ usersOf recs song := List.elem_iff.mp h.2
    rw [hx] at htar
    rcases List.mem_singleton.mp htar with h3
    rw [performersOn, hx, h3]
    simp
  · intro h
    have hcard : (usersOf recs song).length = 1 := by
      rw [← card_performersOn, h]
      simp
    have htar : target ∈ usersOf recs song := by
      rw [← List.mem_toFinset]
      rw [performersOn] at h
      rw [h]
      simp
    simp only [soloAllowed, Bool.and_eq_true]
    exact ⟨beq_iff_eq.mpr hcard, List.elem_iff.mpr htar⟩

/-- C7: the `others2` predicate holds for a song exactly when its
performer set has cardinality exactly 2 and does not contain the target
performer. -/
theorem others2_keeps_two_without_target (recs : List Score) (target song : String) :
    (others2Allowed recs target song = true ↔
      (performersOn recs song).card = 2 ∧ target ∉ performersOn recs song) ∧
      (∀ u, u ∈ performersOn recs song ↔ ∃ r ∈ recs, r.song = song ∧ r.user = u) := by
  refine ⟨?_, mem_performersOn recs song⟩
  simp only [others2Allowed, Bool.and_eq_true, Bool.not_eq_true', card_performersOn]
  constructor
  · intro h
    refine ⟨beq_iff_eq.mp h.2, ?_⟩
    rw [performersOn, List.mem_toFinset]
    intro hmem
    have hc : (usersOf recs song).contains target = true := List.elem_iff.mpr hmem
    rw [h.1] at hc
    cases hc
  · intro h
    refine ⟨?_, beq_iff_eq.mpr h.1⟩
    have hnm : target ∉ usersOf recs song := fun hmem =>
      h.2 (by rw [performersOn, List.mem_toFinset]; exact hmem)
    cases hc : (usersOf recs song).contains target with
    | false => rfl
    | true => exact absurd (List.elem_iff.mp hc) hnm

/-!
## Best-per-(song, user) selection (claim C3)
-/

theorem recLe_total : ∀ a b : Score, recLe a b = true ∨ recLe b a = true := by
  intro a b
  simp only [recLe, Bool.or_eq_true, Bool.and_eq_true, decide_eq_true_eq]
  rcases lt_trichotomy a.score b.score with h | h | h
  · exact Or.inr (Or.inl h)
  · rcases le_total a.date b.date with hd | hd
    · exact Or.inl (Or.inr ⟨h, hd⟩)
    · exact Or.inr (Or.inr ⟨h.symm, hd⟩)
  · exact Or.inl (Or.inl h)

theorem recLe_trans : ∀ a b c : Score,
    recLe a b = true → recLe b c = true → recLe a c = true := by
  intro a b c h1 h2
  simp only [recLe, Bool.or_eq_true, Bool.and_eq_true, decide_eq_true_eq] at h1 h2 ⊢
  rcases h1 with h1 | ⟨h1e, h1d⟩ <;> rcases h2 with h2 | ⟨h2e, h2d⟩
  · exact Or.inl (h2.trans h1)
  · exact Or.inl (by rw [← h2e]; exact h1)
  · exact Or.inl (by rw [h1e]; exact h2)
  · exact Or.inr ⟨h1e.trans h2e, h1d.trans h2d⟩

theorem pairwise_sortedRecs (recs : List Score) :
    (sortedRecs recs).Pairwise (fun x y => recLe x y = true) :=
  pairwise_sortLe recLe recLe_total recLe_trans recs

/-- Records used to exhibit the timestamp tie-break. -/
def tieEarly : Score := ⟨"A", none, "P", 90, 1⟩

def tieLate : Score := ⟨"A", none, "P", 90, 2⟩

/-- C3: for any `(song, user)` pair with at least one record, the
best-per-pair selection returns a record of that pair whose score is
maximal, and whose date is no later than that of any other record of the
pair achieving that score; in particular, of two equal-score records the
earlier one is selected. -/
theorem best_per_pair_selection :
    (∀ (recs : List Score) (s u : String),
      (∃ r ∈ recs, r.song = s ∧ r.user = u) →
      ∃ r, bestFor recs s u = some r ∧ r ∈ recs ∧ r.song = s ∧ r.user = u ∧
        ∀ r' ∈ recs, r'.song = s → r'.user = u →
          r'.score < r.score ∨ (r'.score = r.score ∧ r.date ≤ r'.date)) ∧
    bestFor [tieLate, tieEarly] "A" "P" = some tieEarly := by
  constructor
  · rintro recs s u ⟨r0, hr0, hs0, hu0⟩
    have hmem0 : r0 ∈ sortedRecs recs := (mem_sortLe recLe recs r0).mpr hr0
    have hp0 : (r0.song == s && r0.user == u) = true := by
      simp [hs0, hu0]
    have hsome : ((sortedRecs recs).find? (fun r => r.song == s && r.user == u)).isSome :=
      List.find?_isSome.mpr ⟨r0, hmem0, hp0⟩
    obtain ⟨r, hr⟩ := Option.isSome_iff_exists.mp hsome
    have hpr := List.find?_some hr
    simp only [Bool.and_eq_true] at hpr
    refine ⟨r, hr, (mem_sortLe recLe recs r).mp (List.mem_of_find?_eq_some hr),
      beq_iff_eq.mp hpr.1, beq_iff_eq.mp hpr.2, ?_⟩
    intro r' hr' hs' hu'
    have hmem' : r' ∈ sortedRecs recs := (mem_sortLe recLe recs r').mpr hr'
    have hp' : (r'.song == s && r'.user == u) = true := by
      simp [hs', hu']
    rcases find?_pairwise (pairwise_sortedRecs recs) hr r' hmem' hp' with heq | hle
    · exact Or.inr ⟨by rw [heq], by rw [heq]⟩
    · simp only [recLe, Bool.or_eq_true, Bool.and_eq_true, decide_eq_true_eq] at hle
      rcases hle with hle | ⟨hle1, hle2⟩
      · exact Or.inl hle
      · exact Or.inr ⟨hle1.symm, hle2⟩
  · decide

/-- Witness for C3 at a concrete two-record tie: the pair is non-empty
and the selected record satisfies the stated bounds. -/
theorem best_per_pair_selection_witness :
    (∃ r ∈ [tieLate, tieEarly], r.song = "A" ∧ r.user = "P") ∧
      (∃ r, bestFor [tieLate, tieEarly] "A" "P" = some r ∧
        r ∈ [tieLate, tieEarly] ∧ r.song = "A" ∧ r.user = "P" ∧
        ∀ r' ∈ [tieLate, tieEarly], r'.song = "A" → r'.user = "P" →
          r'.score < r.score ∨ (r'.score = r.score ∧ r.date ≤ r'.date)) :=
  ⟨by decide, best_per_pair_selection.1 [tieLate, tieEarly] "A" "P" (by decide)⟩

/-!
## Per-song top-3 (claim C4)
-/

theorem bestFor_exists (recs : List Score) (s u : String)
    (h : ∃ r ∈ recs, r.song = s ∧ r.user = u) :
    ∃ r, bestFor recs s u = some r ∧ r.song = s ∧ r.user = u := by
  obtain ⟨r0, hr0, hs0, hu0⟩ := h
  have hmem0 : r0 ∈ sortedRecs recs := (mem_sortLe recLe recs r0).mpr hr0
  have hp0 : (r0.song == s && r0.user == u) = true := by simp [hs0, hu0]
  have hsome : ((sortedRecs recs).find? (fun r => r.song == s && r.user == u)).isSome :=
    List.find?_isSome.mpr ⟨r0, hmem0, hp0⟩
  obtain ⟨r, hr⟩ := Option.isSome_iff_exists.mp hsome
  have hpr := List.find?_some hr
  simp only [Bool.and_eq_true] at hpr
  exact ⟨r, hr, beq_iff_eq.mp hpr.1, beq_iff_eq.mp hpr.2⟩

theorem mem_pairKeys (recs : List Score) (k : String × String) :
    k ∈ pairKeys recs ↔ ∃ r ∈ recs, r.song = k.1 ∧ r.user = k.2 := by
  rcases k with ⟨ks, ku⟩
  simp only [pairKeys, List.mem_dedup, List.mem_map]
  constructor
  · rintro ⟨r, hr, hk⟩
    rw [Prod.mk.injEq] at hk
    exact ⟨r, hr, hk.1, hk.2⟩
  · rintro ⟨r, hr, h1, h2⟩
    exact ⟨r, hr, by rw [h1, h2]⟩

theorem filterMap_best_count (recs : List Score) (s : String) :
    ∀ ks : List (String × String),
      (∀ k ∈ ks, ∃ r ∈ recs, r.song = k.1 ∧ r.user = k.2) →
      ((ks.filterMap (fun p => bestFor recs p.1 p.2)).filter
        (fun r => r.song == s)).length = (ks.filter (fun p => p.1 == s)).length := by
  intro ks
  induction ks with
  | nil => intro h; rfl
  | cons k ks ih =>
    intro h
    obtain ⟨r, hbf, hsong, huser⟩ :=
      bestFor_exists recs k.1 k.2 (h k (List.mem_cons_self k ks))
    simp only [List.filterMap_cons, hbf, List.filter_cons]
    have hcond : (r.song == s) = (k.1 == s) := by rw [hsong]
    rw [hcond]
    have htail := ih (fun k' hk' => h k' (List.mem_cons_of_mem k hk'))
    cases hks : (k.1 == s) with
    | true => simp only [if_true, List.length_cons, htail]
    | false => simpa using htail

theorem pairs_filter_length (recs : List Score) (s : String) :
    ((pairKeys recs).filter (fun p => p.1 == s)).length = (usersOf recs s).length := by
  have h1 : (((pairKeys recs).filter (fun p => p.1 == s)).map Prod.snd).Nodup := by
    apply List.Nodup.map_on
    · intro x hx y hy hxy
      have hx1 : (x.1 == s) = true := (List.mem_filter.mp hx).2
      have hy1 : (y.1 == s) = true := (List.mem_filter.mp hy).2
      rcases x with ⟨x1, x2⟩
      rcases y with ⟨y1, y2⟩
      simp only [beq_iff_eq] at hx1 hy1
      simp only at hxy
      rw [Prod.mk.injEq]
      exact ⟨hx1.trans hy1.symm, hxy⟩
    · exact (List.nodup_dedup _).filter _
  have h2 : ∀ u, u ∈ ((pairKeys recs).filter (fun p => p.1 == s)).map Prod.snd ↔
      u ∈ usersOf recs s := by
    intro u
    rw [mem_usersOf]
    simp only [List.mem_map, List.mem_filter]
    constructor
    · rintro ⟨p, ⟨hp, hps⟩, hsnd⟩
      obtain ⟨r, hr, h1', h2'⟩ := (mem_pairKeys recs p).mp hp
      refine ⟨r, hr, ?_, ?_⟩
      · rw [h1']; exact beq_iff_eq.mp hps
      · rw [h2', hsnd]
    · rintro ⟨r, hr, h1', h2'⟩
      refine ⟨(s, u), ⟨(mem_pairKeys recs (s, u)).mpr ⟨r, hr, h1', h2'⟩, by simp⟩, rfl⟩
  have h3 := (List.perm_ext_iff_of_nodup h1 (nodup_usersOf recs s)).mpr h2
  calc ((pairKeys recs).filter (fun p => p.1 == s)).length
      = (((pairKeys recs).filter (fun p => p.1 == s)).map Prod.snd).length :=
        (List.length_map _ _).symm
    _ = (usersOf recs s).length := h3.length_eq

theorem songGroup_length (recs : List Score) (s : String) :
    (songGroup recs s).length = (usersOf recs s).length := by
  rw [songGroup, best_rows,
    filterMap_best_count recs s (pairKeys recs)
      (fun k hk => (mem_pairKeys recs k).mp hk)]
  exact pairs_filter_length recs s

/-- C4: a song's leaderboard is the first 3 of its best-per-performer
rows sorted score-descending then date-ascending; it has exactly
`min 3 (number of distinct performers on the song)` entries, and rank 3
is populated (so can be counted) iff at least 3 distinct performers have
records on the song. -/
theorem top3_leaderboard_size (recs : List Score) (s : String) :
    (top3For recs s).length = min 3 (usersOf recs s).length ∧
      ((thirdPlace recs s).isSome = true ↔ 3 ≤ (usersOf recs s).length) := by
  have hlen : (top3For recs s).length = min 3 (usersOf recs s).length := by
    rw [top3For, List.length_take, length_sortLe, songGroup_length]
  refine ⟨hlen, ?_⟩
  rw [thirdPlace, Option.isSome_map']
  constructor
  · intro h
    have h2 : 2 < (top3For recs s).length := by
      by_contra hc
      rw [List.getElem?_eq_none (by omega)] at h
      simp at h
    rw [hlen] at h2
    omega
  · intro h
    have h2 : 2 < (top3For recs s).length := by rw [hlen]; omega
    rw [List.getElem?_eq_getElem h2]
    simp

/-!
## Item ordering of the rendered ranking (claim C10)
-/

/-- The rendered order: strictly higher top score first; among equal top
scores, lexicographically smaller song name first. -/
def itemBefore (x y : RankItem) : Prop :=
  y.topScore < x.topScore ∨ (x.topScore = y.topScore ∧ x.song < y.song)

theorem insertLe_item_stable (a : RankItem) (l : List RankItem)
    (hl : l.Pairwise itemBefore) (ha : ∀ b ∈ l, a.song < b.song) :
    (insertLe itemLe a l).Pairwise itemBefore := by
  induction l with
  | nil => simp [insertLe]
  | cons b m ih =>
    rw [List.pairwise_cons] at hl
    simp only [insertLe]
    by_cases hab : itemLe a b = true
    · simp only [hab, if_true]
      rw [List.pairwise_cons]
      refine ⟨?_, List.pairwise_cons.mpr hl⟩
      have hba : b.topScore ≤ a.topScore := by
        simpa [itemLe, decide_eq_true_eq] using hab
      intro x hx
      rcases List.mem_cons.mp hx with hx1 | hx1
      · subst hx1
        rcases lt_or_eq_of_le hba with hlt | heq
        · exact Or.inl hlt
        · exact Or.inr ⟨heq.symm, ha x (List.mem_cons_self x m)⟩
      · rcases hl.1 x hx1 with hlt | ⟨heq, _⟩
        · exact Or.inl (lt_of_lt_of_le hlt hba)
        · rcases lt_or_eq_of_le hba with hlt2 | heq2
          · exact Or.inl (heq ▸ hlt2)
          · exact Or.inr ⟨heq2.symm.trans heq, ha x (List.mem_cons_of_mem b hx1)⟩
    · simp only [hab, if_false, Bool.false_eq_true]
      rw [List.pairwise_cons]
      have hab' : a.topScore < b.topScore := by
        have h2 : ¬ (b.topScore ≤ a.topScore) := by
          simpa [itemLe, decide_eq_true_eq] using hab
        exact lt_of_not_le h2
      refine ⟨?_, ih hl.2 (fun c hc => ha c (List.mem_cons_of_mem b hc))⟩
      intro x hx
      have hx2 := (insertLe_perm itemLe a m).mem_iff.mp hx
      rcases List.mem_cons.mp hx2 with hx3 | hx3
      · subst hx3; exact Or.inl hab'
      · exact hl.1 x hx3

/-- A stable descending-by-top-score sort of a list built in strictly
ascending song order is ordered by `itemBefore`. -/
theorem sortLe_item_stable (l : List RankItem)
    (hl : l.Pairwise (fun x y => x.song < y.song)) :
    (sortLe itemLe l).Pairwise itemBefore := by
  induction l with
  | nil => exact List.Pairwise.nil
  | cons a m ih =>
    rw [List.pairwise_cons] at hl
    exact insertLe_item_stable a (sortLe itemLe m) (ih hl.2)
      (fun b hb => hl.1 b ((mem_sortLe itemLe m b).mp hb))

theorem pairwise_filterMap_of {α β : Type} {R : α → α → Prop} {S : β → β → Prop}
    (f : α → Option β)
    (hf : ∀ a b a' b', R a b → f a = some a' → f b = some b' → S a' b') :
    ∀ l : List α, l.Pairwise R → (l.filterMap f).Pairwise S := by
  intro l hl
  induction l with
  | nil => simp
  | cons x xs ih =>
    rw [List.pairwise_cons] at hl
    simp only [List.filterMap_cons]
    cases hx : f x with
    | none => exact ih hl.2
    | some y =>
      rw [List.pairwise_cons]
      constructor
      · intro b hb
        obtain ⟨a, ha, hfa⟩ := List.mem_filterMap.mp hb
        exact hf x a y b (hl.1 a ha) hx hfa
      · exact ih hl.2

theorem strLe_total : ∀ a b : String, strLe a b = true ∨ strLe b a = true := by
  intro a b
  simp only [strLe, decide_eq_true_eq]
  exact le_total a b

theorem strLe_trans : ∀ a b c : String,
    strLe a b = true → strLe b c = true → strLe a c = true := by
  intro a b c h1 h2
  simp only [strLe, decide_eq_true_eq] at h1 h2 ⊢
  exact le_trans h1 h2

theorem songKeys_sorted_strict (recs : List Score) :
    (songKeys recs).Pairwise (fun a b => a < b) := by
  have hnd : (songKeys recs).Nodup := by
    simp only [songKeys]
    exact (sortLe_perm strLe _).symm.nodup (List.nodup_dedup _)
  have hle : (songKeys recs).Pairwise (fun a b => strLe a b = true) :=
    pairwise_sortLe strLe strLe_total strLe_trans _
  refine (hle.and hnd).imp ?_
  rintro a b ⟨h1, h2⟩
  exact lt_of_le_of_ne (by simpa [strLe, decide_eq_true_eq] using h1) h2

theorem ranking_item_song (best : List Score) (s : String) (it : RankItem)
    (h : (match sortLe recLe (best.filter (fun r => r.song == s)) with
          | [] => none
          | r0 :: g => some ⟨s, r0.score, (r0 :: g).take 3, r0.singer⟩)
        = some it) :
    it.song = s := by
  cases hm : sortLe recLe (best.filter (fun r => r.song == s)) with
  | nil => rw [hm] at h; cases h
  | cons r0 g => rw [hm] at h; cases h; rfl

/-- C10: in the rendered `ranking_list`, items appear in descending
order of their rank-1 (top) score, and any two items with equal top
score appear in ascending lexicographic order of their song names
(`groupby` emits songs in ascending order and Python's stable
`list.sort` with `reverse=True` keeps that order among equal keys). -/
theorem ranking_list_order (recs : List Score) :
    (ranking_list recs).Pairwise (fun x y =>
      y.topScore < x.topScore ∨ (x.topScore = y.topScore ∧ x.song < y.song)) := by
  have h := sortLe_item_stable
    ((songKeys (best_rows recs)).filterMap (fun s =>
      match sortLe recLe ((best_rows recs).filter (fun r => r.song == s)) with
      | [] => none
      | r0 :: g => some ⟨s, r0.score, (r0 :: g).take 3, r0.singer⟩))
    (pairwise_filterMap_of _
      (fun a b a' b' hab ha hb => by
        have h1 := ranking_item_song (best_rows recs) a a' ha
        have h2 := ranking_item_song (best_rows recs) b b' hb
        rw [h1, h2]; exact hab)
      _ (songKeys_sorted_strict (best_rows recs)))
  exact h

/-!
## Scope of the per-user statistics (claim C5)

In `ranking`, `user_averages`, `user_total_records`, `user_95_counts`
and `user_dere_counts` are computed from `df_all` *after* the
`filter_user`/`filter_type` block but *before* the song/singer search
filters, while `best_rows`/`ranking_list` (and the rank-1/rank-3 counts
read off them) are computed from the fully filtered frame.
-/

/-- Two songs by one performer, both ≥ 95. -/
def exRecs : List Score := [⟨"A", none, "X", 96, 0⟩, ⟨"B", none, "X", 96, 1⟩]

/-- A view with the `95` performer filter applied *and* a song search
that keeps only song "A". -/
def exQuery : Query := ⟨"A", "", "X", "95"⟩

/-- C5 (counterexample): with a performer filter applied together with a
song search, the per-user total-record statistic is computed over a
different record set than the ranked items: here it reports 2 records
for user X while the ranked view contains only 1. -/
theorem stats_scope_counterexample :
    user_total_records (applyTypeFilter exRecs exQuery) ≠
      user_total_records (rankedSource exRecs exQuery) := by
  decide

/-- C5 (amended): the mean, total, ≥95 and low-peak statistics are
computed over the record set after the performer/type filter but before
the search filters; only when no song/singer search is present do they
coincide with statistics over the ranked view's record set (the
rank-1/rank-3 counts are always taken from the ranked view itself). -/
theorem stats_consistent_without_search (recs : List Score) (q : Query)
    (h1 : q.songQ = "") (h2 : q.singerQ = "") :
    rankedSource recs q = applyTypeFilter recs q ∧
    user_averages (applyTypeFilter recs q) = user_averages (rankedSource recs q) ∧
    user_total_records (applyTypeFilter recs q) =
      user_total_records (rankedSource recs q) ∧
    user_95_counts (applyTypeFilter recs q) = user_95_counts (rankedSource recs q) ∧
    user_dere_counts (applyTypeFilter recs q) = user_dere_counts (rankedSource recs q) ∧
    ranking_list (rankedSource recs q) = ranking_list (applyTypeFilter recs q) := by
  have hr : rankedSource recs q = applyTypeFilter recs q := by
    simp [rankedSource, applySearch, h1, h2]
  exact ⟨hr, by rw [hr], by rw [hr], by rw [hr], by rw [hr], by rw [hr]⟩

/-- Witness for the amended C5 theorem at a concrete filtered view with
no search query. -/
theorem stats_consistent_without_search_witness :
    rankedSource exRecs ⟨"", "", "X", "95"⟩ =
      applyTypeFilter exRecs ⟨"", "", "X", "95"⟩ ∧
    user_averages (applyTypeFilter exRecs ⟨"", "", "X", "95"⟩) =
      user_averages (rankedSource exRecs ⟨"", "", "X", "95"⟩) ∧
    user_total_records (applyTypeFilter exRecs ⟨"", "", "X", "95"⟩) =
      user_total_records (rankedSource exRecs ⟨"", "", "X", "95"⟩) ∧
    user_95_counts (applyTypeFilter exRecs ⟨"", "", "X", "95"⟩) =
      user_95_counts (rankedSource exRecs ⟨"", "", "X", "95"⟩) ∧
    user_dere_counts (applyTypeFilter exRecs ⟨"", "", "X", "95"⟩) =
      user_dere_counts (rankedSource exRecs ⟨"", "", "X", "95"⟩) ∧
    ranking_list (rankedSource exRecs ⟨"", "", "X", "95"⟩) =
      ranking_list (applyTypeFilter exRecs ⟨"", "", "X", "95"⟩) :=
  stats_consistent_without_search exRecs ⟨"", "", "X", "95"⟩ rfl rfl

/-!
## Provider fetch and normalization (claims C8, C9)

`fetch_damtomo_ai_scores` is embedded with the network made explicit: a
`provider` function gives each page's outcome (request/parse failure, or
a page with a status-OK flag and its `scoring` elements).  The second
component of the result counts the network requests issued.  Python's
`float` on the provider's plain decimal score text is embedded by
`parseFloat` (sign, digits, optional fraction, surrounding whitespace;
the exotic `float` forms — exponents, inf, nan — never occur in provider
data and are not modelled).  `str.strip()` is embedded by `pyStrip`.
-/

/-- One `scoring` element: attributes and the numeric text body. -/
structure RawScoring where
  contentsName : String
  artistName : String
  scoringDateTime : String
  text : Option String
deriving DecidableEq, Repr

/-- One normalized row appended to `all_scores`:
`[song, singer, username, score_val, date_str]`. -/
structure FetchRow where
  song : String
  singer : String
  user : String
  score : ℚ
  dateStr : String
deriving DecidableEq, Repr

def stripChars (l : List Char) : List Char :=
  ((l.dropWhile Char.isWhitespace).reverse.dropWhile Char.isWhitespace).reverse

/-- Python `str.strip()`. -/
def pyStrip (s : String) : String := String.mk (stripChars s.data)

def digitsToNat (l : List Char) : ℕ :=
  l.foldl (fun acc c => 10 * acc + (c.toNat - 48)) 0

def parseUnsigned (cs : List Char) : Option ℚ :=
  match cs.dropWhile Char.isDigit with
  | [] => if (cs.takeWhile Char.isDigit).isEmpty then none
      else some (digitsToNat (cs.takeWhile Char.isDigit) : ℚ)
  | '.' :: fr =>
    if fr.all Char.isDigit &&
        !((cs.takeWhile Char.isDigit).isEmpty && fr.isEmpty) then
      some ((digitsToNat (cs.takeWhile Char.isDigit) : ℚ) +
        (digitsToNat fr : ℚ) / ((10 : ℚ) ^ fr.length))
    else none
  | _ => none

/-- Python `float(raw)` on plain decimal notation. -/
def parseFloat (s : String) : Option ℚ :=
  match stripChars s.data with
  | '-' :: cs => (parseUnsigned cs).map (fun v => -v)
  | '+' :: cs => parseUnsigned cs
  | cs => parseUnsigned cs

/-- The body of the per-`scoring` loop: strip the name attributes, drop
the entry when the text body is absent or does not parse, otherwise
scale the parsed value by 1/1000. -/
def normalizeEntry (username : String) (d : RawScoring) : Option FetchRow :=
  match d.text with
  | none => none
  | some raw =>
    match parseFloat raw with
    | none => none
    | some v =>
      some ⟨pyStrip d.contentsName, pyStrip d.artistName, username,
        v / 1000, pyStrip d.scoringDateTime⟩

/-- All rows a page contributes to `all_scores`. -/
def processScorings (username : String) (l : List RawScoring) : List FetchRow :=
  l.filterMap (normalizeEntry username)

/-- Outcome of one page request: a request/parse failure, or a response
with its status-OK flag and `scoring` elements. -/
inductive PageResp where
  | fail : PageResp
  | page : Bool → List RawScoring → PageResp
deriving DecidableEq, Repr

/-- A page that lets the loop continue: status OK and at least one
`scoring` element. -/
def goodPage : PageResp → Bool
  | PageResp.page true (_ :: _) => true
  | _ => false

/-- The paging loop of `fetch_damtomo_ai_scores`, from page number
`page` with `fuel` pages remaining; returns the accumulated rows and
the number of network requests issued. -/
def fetchFrom (cardNo : String) (provider : ℕ → PageResp) (username : String) :
    ℕ → ℕ → List FetchRow × ℕ
  | _, 0 => ([], 0)
  | page, fuel + 1 =>
    if cardNo == "" then ([], 0)
    else
      match provider page with
      | PageResp.fail => ([], 1)
      | PageResp.page ok scorings =>
        if !ok then ([], 1)
        else if scorings.isEmpty then ([], 1)
        else
          ((processScorings username scorings) ++
            (fetchFrom cardNo provider username (page + 1) fuel).1,
           (fetchFrom cardNo provider username (page + 1) fuel).2 + 1)

/-- Embeds `fetch_damtomo_ai_scores(username, cookies, max_pages)`: pages start
at 1; `cardNo` is `cookies["scr_cdm"]`. -/
def fetch_damtomo_ai_scores (username : String) (cardNo : String)
    (provider : ℕ → PageResp) (maxPages : ℕ) : List FetchRow × ℕ :=
  fetchFrom cardNo provider username 1 maxPages

theorem fetchFrom_stops (username cardNo : String) (provider : ℕ → PageResp)
    (hc : cardNo ≠ "") :
    ∀ fuel start p : ℕ, start ≤ p → p < start + fuel →
      (∀ q, start ≤ q → q < p → goodPage (provider q) = true) →
      goodPage (provider p) = false →
      (fetchFrom cardNo provider username start fuel).2 = p - start + 1 := by
  intro fuel
  induction fuel with
  | zero =>
    intro start p h1 h2 h3 h4
    omega
  | succ n ih =>
    intro start p h1 h2 h3 h4
    have hcb : (cardNo == "") = false := beq_eq_false_iff_ne.mpr hc
    by_cases hsp : start = p
    · subst hsp
      cases hpp : provider start with
      | fail => simp [fetchFrom, hcb, hpp]
      | page ok scorings =>
        cases ok with
        | false => simp [fetchFrom, hcb, hpp]
        | true =>
          cases scorings with
          | nil => simp [fetchFrom, hcb, hpp]
          | cons s0 ss =>
            rw [hpp] at h4
            simp [goodPage] at h4
    · have hlt : start < p := lt_of_le_of_ne h1 hsp
      have hg := h3 start (le_refl start) hlt
      cases hpp : provider start with
      | fail => rw [hpp] at hg; simp [goodPage] at hg
      | page ok scorings =>
        cases ok with
        | false => rw [hpp] at hg; simp [goodPage] at hg
        | true =>
          cases scorings with
          | nil => rw [hpp] at hg; simp [goodPage] at hg
          | cons s0 ss =>
            have hrec := ih (start + 1) p hlt (by omega)
              (fun q hq1 hq2 => h3 q (by omega) hq2) h4
            simp only [fetchFrom, hcb, Bool.false_eq_true, if_false, hpp,
              Bool.not_true, List.isEmpty_cons]
            rw [hrec]
            omega

/-- C8: an empty card identifier yields an empty result with zero
network requests; and if every page before `p` continues (status OK,
non-empty) while page `p` fails, has a bad status, or is empty, then
exactly `p` requests are issued — no page after `p` is requested, and
the fetcher returns normally. -/
theorem fetch_stop_conditions :
    (∀ (username : String) (provider : ℕ → PageResp) (maxPages : ℕ),
      fetch_damtomo_ai_scores username "" provider maxPages = ([], 0)) ∧
    (∀ (username cardNo : String) (provider : ℕ → PageResp) (maxPages p : ℕ),
      cardNo ≠ "" → 1 ≤ p → p ≤ maxPages →
      (∀ q, 1 ≤ q → q < p → goodPage (provider q) = true) →
      goodPage (provider p) = false →
      (fetch_damtomo_ai_scores username cardNo provider maxPages).2 = p) := by
  constructor
  · intro username provider maxPages
    cases maxPages with
    | zero => rfl
    | succ n => rfl
  · intro username cardNo provider maxPages p hc h1 h2 h3 h4
    have h := fetchFrom_stops username cardNo provider hc maxPages 1 p h1
      (by omega) h3 h4
    simp only [fetch_damtomo_ai_scores]
    rw [h]
    omega

/-- Provider whose every request fails at the transport level. -/
def provFail : ℕ → PageResp := fun _ => PageResp.fail

/-- Witness for C8: with a non-empty card and a provider failing on page
1, exactly one request is made. -/
theorem fetch_stop_conditions_witness :
    (fetch_damtomo_ai_scores "u" "card" provFail 3).2 = 1 :=
  fetch_stop_conditions.2 "u" "card" provFail 3 1 (by decide) (by omega)
    (by omega) (fun q hq1 hq2 => absurd (Nat.lt_of_le_of_lt hq1 hq2)
      (Nat.lt_irrefl 1)) (by decide)

/-- Concrete scoring entry with raw score text `"92500"`. -/
def e92500 : RawScoring := ⟨" Song ", "Artist", "2024-01-01 10:00", some "92500"⟩

/-- C9: when the score text parses as the number `v`, normalization
produces a row whose score is `v / 1000` (names and date stripped);
when it does not parse, the entry is dropped — and dropping it removes
exactly that entry from the batch, with the fetcher returning normally;
and the raw text `"92500"` parses to `92500`, so its score is
`92500 / 1000 = 92.5`. -/
theorem normalize_score_scaling :
    (∀ (username : String) (d : RawScoring) (t : String) (v : ℚ),
      d.text = some t → parseFloat t = some v →
      normalizeEntry username d = some ⟨pyStrip d.contentsName,
        pyStrip d.artistName, username, v / 1000, pyStrip d.scoringDateTime⟩) ∧
    (∀ (username : String) (d : RawScoring) (t : String),
      d.text = some t → parseFloat t = none → normalizeEntry username d = none) ∧
    (∀ (username : String) (l1 l2 : List RawScoring) (d : RawScoring),
      normalizeEntry username d = none →
      processScorings username (l1 ++ d :: l2) = processScorings username (l1 ++ l2)) ∧
    parseFloat "92500" = some 92500 ∧ (92500 : ℚ) / 1000 = 185 / 2 := by
  refine ⟨?_, ?_, ?_, ?_, by norm_num⟩
  · intro username d t v ht hv
    rcases d with ⟨cn, an, dt, tx⟩
    simp only at ht
    subst ht
    simp [normalizeEntry, hv]
  · intro username d t ht hv
    rcases d with ⟨cn, an, dt, tx⟩
    simp only at ht
    subst ht
    simp [normalizeEntry, hv]
  · intro username l1 l2 d h
    simp [processScorings, List.filterMap_append, List.filterMap_cons, h]
  · decide

/-- Witness for C9 at the concrete entry: `"92500"` normalizes to score
`92500 / 1000`. -/
theorem normalize_score_scaling_witness :
    normalizeEntry "u" e92500 = some ⟨pyStrip e92500.contentsName,
      pyStrip e92500.artistName, "u", (92500 : ℚ) / 1000,
      pyStrip e92500.scoringDateTime⟩ :=
  normalize_score_scaling.1 "u" e92500 "92500" 92500 rfl
    normalize_score_scaling.2.2.2.1
